import Mathlib

/-!
# Verification of the elasticsearch indexing plugin

A shallow embedding of `src/plugins/elasticsearch_plugin/elasticsearch_plugin.cpp`.

Account, action, permission and status identifiers are 64-bit constants in the
source that are only ever compared for equality (plus the `0` wildcard / empty
sentinel), so they are modelled as distinct natural numbers, with `0` kept as
the sentinel value used by `filter_entry` lookups and by `name.good()`.

Interactions with the external search store are modelled as effect traces:
each search-store call the plugin makes becomes an element of an effect list,
in the order the source performs them.  Results of search queries
(`hits.total`, the stored ABI document) are inputs of the model, since they
come from the external store.
-/

namespace Eos

/-- `chain::config::system_account_name` (the `eosio` account). -/
def system_account_name : Nat := 1

/-- `chain::newaccount::get_name()`. -/
def newaccountName : Nat := 2

/-- `chain::setabi::get_name()`. -/
def setabiName : Nat := 3

/-- `chain::updateauth::get_name()`. -/
def updateauthName : Nat := 4

/-- `chain::deleteauth::get_name()`. -/
def deleteauthName : Nat := 5

/-- `chain::config::owner_name`. -/
def ownerPermission : Nat := 6

/-- `chain::config::active_name`. -/
def activePermission : Nat := 7

/-- `chain::transaction_receipt_header::executed` (first enumerator). -/
def executedStatus : Nat := 0

/-- An abstract decoded `abi_def`.  Its contents are irrelevant to the claims;
what matters is whether decoding succeeded and which decoded value flows into
which document. -/
structure AbiDef where
  version : Nat
deriving DecidableEq, Repr

/-- One entry of `chain::action::authorization` (`chain::permission_level`). -/
structure PermissionLevel where
  actor : Nat
  permission : Nat
deriving DecidableEq, Repr

/-- The decoded payload of an action, as obtained by `act.data_as<T>()` /
`fc::raw::unpack`.  A constructor mismatch models an unpack failure (the
source throws, and the caller catches).  For `setabi`, the nested `abi` bytes
are modelled by `Option AbiDef`: `some` iff `fc::raw::unpack<abi_def>`
succeeds on them. -/
inductive ActionData where
  | newaccountData (name : Nat) (ownerKeys : List Nat) (ownerAccounts : List Nat)
      (activeKeys : List Nat) (activeAccounts : List Nat)
  | updateauthData (account : Nat) (permission : Nat)
      (authKeys : List Nat) (authAccounts : List Nat)
  | deleteauthData (account : Nat) (permission : Nat)
  | setabiData (account : Nat) (abi : Option AbiDef)
  | otherData
deriving DecidableEq, Repr

/-- `chain::action`, with the fields the plugin reads. -/
structure Action where
  account : Nat
  name : Nat
  authorization : List PermissionLevel
  data : ActionData
deriving DecidableEq, Repr

/-- `filter_entry`: a `(receiver, action, actor)` triple; `0` is the wildcard
sentinel in the positions it occupies. -/
structure FilterEntry where
  receiver : Nat
  action : Nat
  actor : Nat
deriving DecidableEq, Repr

/-- `std::set<filter_entry>::find` against the triple key. -/
def containsEntry (s : List FilterEntry) (e : FilterEntry) : Bool :=
  s.any (fun x => x == e)

/-- The filtering configuration: `filter_on_star`, `filter_on`, `filter_out`. -/
structure FilterConfig where
  filter_on_star : Bool
  filter_on : List FilterEntry
  filter_out : List FilterEntry
deriving DecidableEq, Repr

/-- `elasticsearch_plugin_impl::filter_include` (lines 199-226). -/
def filter_include (cfg : FilterConfig) (act : Action) : Bool :=
  let incl :=
    if cfg.filter_on_star || containsEntry cfg.filter_on ⟨act.account, act.name, 0⟩ then
      true
    else
      act.authorization.any
        (fun a => containsEntry cfg.filter_on ⟨act.account, act.name, a.actor⟩)
  if !incl then false
  else if containsEntry cfg.filter_out ⟨act.account, 0, 0⟩ then false
  else if containsEntry cfg.filter_out ⟨act.account, act.name, 0⟩ then false
  else if act.authorization.any
      (fun a => containsEntry cfg.filter_out ⟨act.account, act.name, a.actor⟩) then false
  else true

theorem containsEntry_eq_true {s : List FilterEntry} {e : FilterEntry} :
    containsEntry s e = true ↔ e ∈ s := by
  simp [containsEntry, List.any_eq_true]

theorem containsEntry_eq_false {s : List FilterEntry} {e : FilterEntry} :
    containsEntry s e = false ↔ e ∉ s := by
  rw [← containsEntry_eq_true]
  simp

theorem any_congr_perm {α : Type} {l₁ l₂ : List α} (f : α → Bool) (h : l₁.Perm l₂) :
    l₁.any f = l₂.any f := by
  cases hb : l₂.any f with
  | true =>
    rw [List.any_eq_true] at hb ⊢
    obtain ⟨x, hx, hfx⟩ := hb
    exact ⟨x, h.mem_iff.mpr hx, hfx⟩
  | false =>
    rw [List.any_eq_false] at hb ⊢
    intro x hx
    exact hb x (h.mem_iff.mp hx)

theorem filter_include_eq (cfg : FilterConfig) (act : Action) :
    filter_include cfg act
      = ((cfg.filter_on_star
            || containsEntry cfg.filter_on ⟨act.account, act.name, 0⟩
            || act.authorization.any
                 (fun a => containsEntry cfg.filter_on ⟨act.account, act.name, a.actor⟩))
         && !containsEntry cfg.filter_out ⟨act.account, 0, 0⟩
         && !containsEntry cfg.filter_out ⟨act.account, act.name, 0⟩
         && !act.authorization.any
              (fun a => containsEntry cfg.filter_out ⟨act.account, act.name, a.actor⟩)) := by
  simp only [filter_include]
  cases hs : cfg.filter_on_star <;>
    cases h1 : containsEntry cfg.filter_on ⟨act.account, act.name, 0⟩ <;>
    cases h2 : act.authorization.any
        (fun a => containsEntry cfg.filter_on ⟨act.account, act.name, a.actor⟩) <;>
    cases h3 : containsEntry cfg.filter_out ⟨act.account, 0, 0⟩ <;>
    cases h4 : containsEntry cfg.filter_out ⟨act.account, act.name, 0⟩ <;>
    cases h5 : act.authorization.any
        (fun a => containsEntry cfg.filter_out ⟨act.account, act.name, a.actor⟩) <;>
    simp

/-- C5: `filter_include` returns true iff the action is a candidate (wildcard
mode, or `(account, name, 0)` in `filter_on`, or `(account, name, actor)` in
`filter_on` for some authorizer) and `filter_out` contains none of
`(account, 0, 0)`, `(account, name, 0)`, `(account, name, actor)` for any
authorizer. -/
theorem filter_include_iff (cfg : FilterConfig) (act : Action) :
    filter_include cfg act = true ↔
      ((cfg.filter_on_star = true
          ∨ (⟨act.account, act.name, 0⟩ : FilterEntry) ∈ cfg.filter_on
          ∨ ∃ a ∈ act.authorization,
              (⟨act.account, act.name, a.actor⟩ : FilterEntry) ∈ cfg.filter_on)
        ∧ (⟨act.account, 0, 0⟩ : FilterEntry) ∉ cfg.filter_out
        ∧ (⟨act.account, act.name, 0⟩ : FilterEntry) ∉ cfg.filter_out
        ∧ ∀ a ∈ act.authorization,
            (⟨act.account, act.name, a.actor⟩ : FilterEntry) ∉ cfg.filter_out) := by
  rw [filter_include_eq]
  simp [containsEntry_eq_true, containsEntry_eq_false, List.any_eq_true, or_assoc, and_assoc]

/-- C6: `filter_include` is invariant under permutation of the authorization
list. -/
theorem filter_include_perm (cfg : FilterConfig) (acc nm : Nat) (d : ActionData)
    (l₁ l₂ : List PermissionLevel) (h : l₁.Perm l₂) :
    filter_include cfg ⟨acc, nm, l₁, d⟩ = filter_include cfg ⟨acc, nm, l₂, d⟩ := by
  simp only [filter_include]
  rw [any_congr_perm _ h, any_congr_perm _ h]

/-- Witness for C6 at a concrete action and a concrete transposition of its
two authorizers. -/
theorem filter_include_perm_witness :
    filter_include ⟨true, [], [⟨10, 20, 30⟩]⟩ ⟨10, 20, [⟨40, 7⟩, ⟨30, 7⟩], .otherData⟩
      = filter_include ⟨true, [], [⟨10, 20, 30⟩]⟩ ⟨10, 20, [⟨30, 7⟩, ⟨40, 7⟩], .otherData⟩ :=
  filter_include_perm ⟨true, [], [⟨10, 20, 30⟩]⟩ 10 20 .otherData
    [⟨40, 7⟩, ⟨30, 7⟩] [⟨30, 7⟩, ⟨40, 7⟩] (List.Perm.swap (⟨30, 7⟩ : PermissionLevel) ⟨40, 7⟩ [])

/-! ## Applied-transaction processing (consumer worker, applied-trace path) -/

mutual
/-- `chain::action_trace`: an action, its receipt's receiver, and the inline
trace children.  Mutual with the list of children so that structural
recursion and induction are available. -/
inductive ActionTrace where
  | node : Action → Nat → ActionTraceList → ActionTrace
deriving DecidableEq, Repr

inductive ActionTraceList where
  | nil : ActionTraceList
  | cons : ActionTrace → ActionTraceList → ActionTraceList
deriving DecidableEq, Repr
end

/-- `atrace.act`. -/
def ActionTrace.act : ActionTrace → Action
  | .node a _ _ => a

/-- `atrace.receipt.receiver`. -/
def ActionTrace.receiver : ActionTrace → Nat
  | .node _ r _ => r

/-- `chain::transaction_trace`: receipt presence (`t->receipt.valid()`),
receipt status, and the root action traces. -/
structure TransactionTrace where
  receipt_valid : Bool
  receipt_status : Nat
  action_traces : ActionTraceList
deriving DecidableEq, Repr

/-- The observable calls the applied-trace path makes, in source order:
`update_account` invocations, action-trace documents appended to the bulk,
the bulk flush, and the `transaction_traces` document. -/
inductive PipeEffect where
  | updateAccountCall (act : Action)
  | indexActionTrace (act : Action)
  | bulkPerform
  | indexTransTrace
deriving DecidableEq, Repr

mutual
/-- `elasticsearch_plugin_impl::add_action_trace` (lines 733-758), returning
the effect trace and the `added` flag.  `gate` is `start_block_reached`,
`sat` is `store_action_traces`, `executed` is the transaction-level receipt
check passed down by the caller. -/
def add_action_trace (gate sat : Bool) (cfg : FilterConfig) (executed : Bool) :
    ActionTrace → List PipeEffect × Bool
  | .node act receiver inls =>
    let upd : List PipeEffect :=
      if executed && (receiver == system_account_name) then
        [.updateAccountCall act]
      else []
    let self : List PipeEffect × Bool :=
      if gate && sat && filter_include cfg act then
        ([.indexActionTrace act], true)
      else ([], false)
    let children := add_action_trace_list gate sat cfg executed inls
    (upd ++ self.1 ++ children.1, self.2 || children.2)

def add_action_trace_list (gate sat : Bool) (cfg : FilterConfig) (executed : Bool) :
    ActionTraceList → List PipeEffect × Bool
  | .nil => ([], false)
  | .cons t ts =>
    let r₁ := add_action_trace gate sat cfg executed t
    let r₂ := add_action_trace_list gate sat cfg executed ts
    (r₁.1 ++ r₂.1, r₁.2 || r₂.2)
end

/-- `elasticsearch_plugin_impl::_process_applied_transaction`
(lines 847-887).  `stt` is `store_transaction_traces`. -/
def processAppliedTransactionInner (gate sat stt : Bool) (cfg : FilterConfig)
    (t : TransactionTrace) : List PipeEffect :=
  let executed := t.receipt_valid && (t.receipt_status == executedStatus)
  let r := add_action_trace_list gate sat cfg executed t.action_traces
  r.1
    ++ (if r.2 then [PipeEffect.bulkPerform] else [])
    ++ (if !gate || !stt then []
        else if !r.2 then []
        else [PipeEffect.indexTransTrace])

/-- `elasticsearch_plugin_impl::process_applied_transaction`
(lines 430-442): the applied-trace handler runs only when
`start_block_reached` is set. -/
def process_applied_transaction (gate sat stt : Bool) (cfg : FilterConfig)
    (t : TransactionTrace) : List PipeEffect :=
  if gate then processAppliedTransactionInner gate sat stt cfg t else []

mutual
/-- All the nodes of an action-trace tree (the node itself and its
descendants), in the depth-first order the source walks them. -/
def traceNodes : ActionTrace → List ActionTrace
  | .node a r l => .node a r l :: traceNodesList l

def traceNodesList : ActionTraceList → List ActionTrace
  | .nil => []
  | .cons t ts => traceNodes t ++ traceNodesList ts
end

theorem added_iff :
    ∀ (gate sat : Bool) (cfg : FilterConfig) (executed : Bool) (l : ActionTraceList),
      (add_action_trace_list gate sat cfg executed l).2 = true ↔
        (gate = true ∧ sat = true
          ∧ ∃ n ∈ traceNodesList l, filter_include cfg n.act = true) := by
  intro gate sat cfg executed
  refine @ActionTraceList.rec
    (fun t => (add_action_trace gate sat cfg executed t).2 = true ↔
        (gate = true ∧ sat = true
          ∧ ∃ n ∈ traceNodes t, filter_include cfg n.act = true))
    (fun l => (add_action_trace_list gate sat cfg executed l).2 = true ↔
        (gate = true ∧ sat = true
          ∧ ∃ n ∈ traceNodesList l, filter_include cfg n.act = true))
    ?_ ?_ ?_
  · intro act receiver inls ih
    simp only [add_action_trace, traceNodes, Bool.or_eq_true, ih, List.mem_cons]
    constructor
    · rintro (h | ⟨hg, hs, n, hn, hf⟩)
      · split at h
        · rename_i hcond
          simp only [Bool.and_eq_true] at hcond
          exact ⟨hcond.1.1, hcond.1.2,
            ⟨.node act receiver inls, Or.inl rfl, hcond.2⟩⟩
        · exact absurd h (by simp)
      · exact ⟨hg, hs, n, Or.inr hn, hf⟩
    · rintro ⟨hg, hs, n, hn | hn, hf⟩
      · subst hn
        left
        simp only [ActionTrace.act] at hf
        simp [hg, hs, hf]
      · exact Or.inr ⟨hg, hs, n, hn, hf⟩
  · simp [add_action_trace_list, traceNodesList]
  · intro t ts iht ihts
    simp only [add_action_trace_list, Bool.or_eq_true, iht, ihts, traceNodesList,
      List.mem_append]
    constructor
    · rintro (⟨hg, hs, n, hn, hf⟩ | ⟨hg, hs, n, hn, hf⟩)
      · exact ⟨hg, hs, n, Or.inl hn, hf⟩
      · exact ⟨hg, hs, n, Or.inr hn, hf⟩
    · rintro ⟨hg, hs, n, hn | hn, hf⟩
      · exact Or.inl ⟨hg, hs, n, hn, hf⟩
      · exact Or.inr ⟨hg, hs, n, hn, hf⟩

theorem no_trans_trace_in_add :
    ∀ (gate sat : Bool) (cfg : FilterConfig) (executed : Bool) (l : ActionTraceList),
      PipeEffect.indexTransTrace ∉ (add_action_trace_list gate sat cfg executed l).1 := by
  intro gate sat cfg executed
  refine @ActionTraceList.rec
    (fun t => PipeEffect.indexTransTrace ∉ (add_action_trace gate sat cfg executed t).1)
    (fun l => PipeEffect.indexTransTrace ∉ (add_action_trace_list gate sat cfg executed l).1)
    ?_ ?_ ?_
  · intro act receiver inls ih
    simp only [add_action_trace, List.append_assoc, List.mem_append]
    rintro (h | h | h)
    · split at h <;> simp_all
    · split at h <;> simp_all
    · exact ih h
  · simp [add_action_trace_list]
  · intro t ts iht ihts
    simp only [add_action_trace_list, List.mem_append]
    rintro (h | h)
    · exact iht h
    · exact ihts h

theorem update_account_call_in_add :
    ∀ (gate sat : Bool) (cfg : FilterConfig) (l : ActionTraceList) (n : ActionTrace),
      n ∈ traceNodesList l → n.receiver = system_account_name →
      PipeEffect.updateAccountCall n.act ∈ (add_action_trace_list gate sat cfg true l).1 := by
  intro gate sat cfg
  refine @ActionTraceList.rec
    (fun t => ∀ n : ActionTrace, n ∈ traceNodes t → n.receiver = system_account_name →
        PipeEffect.updateAccountCall n.act ∈ (add_action_trace gate sat cfg true t).1)
    (fun l => ∀ n : ActionTrace, n ∈ traceNodesList l → n.receiver = system_account_name →
        PipeEffect.updateAccountCall n.act ∈ (add_action_trace_list gate sat cfg true l).1)
    ?_ ?_ ?_
  · intro act receiver inls ih n hn hr
    simp only [traceNodes, List.mem_cons] at hn
    simp only [add_action_trace, List.append_assoc, List.mem_append]
    rcases hn with hn | hn
    · subst hn
      simp only [ActionTrace.receiver] at hr
      left
      simp [hr, ActionTrace.act]
    · exact Or.inr (Or.inr (ih n hn hr))
  · intro n hn
    simp [traceNodesList] at hn
  · intro t ts iht ihts n hn hr
    simp only [traceNodesList, List.mem_append] at hn
    simp only [add_action_trace_list, List.mem_append]
    rcases hn with hn | hn
    · exact Or.inl (iht n hn hr)
    · exact Or.inr (ihts n hn hr)

/-- A wildcard-only filter configuration (`filter_on_star = true`). -/
def sampleCfgStar : FilterConfig := ⟨true, [], []⟩

/-- A non-system action used by the concrete scenarios. -/
def sampleAction : Action := ⟨10, 11, [], .otherData⟩

/-- An executed trace with a single system-receiver node carrying
`sampleAction`. -/
def sampleSysNode : ActionTrace := .node sampleAction system_account_name .nil

/-- A transaction trace with an `executed` receipt whose only action trace is
`sampleSysNode`. -/
def sampleTrace : TransactionTrace := ⟨true, executedStatus, .cons sampleSysNode .nil⟩

/-- C2 (amended): a `transaction_traces` document is indexed iff the
start-block gate is open, `store_action_traces` is true,
`store_transaction_traces` is true, and at least one action trace within `t`
passed the filter.  (The claim as frozen omits the `store_action_traces`
conjunct: with it false no action-trace document is appended, so
`write_atraces` stays false and the transaction trace is skipped.) -/
theorem trans_trace_written_iff (gate sat stt : Bool) (cfg : FilterConfig)
    (t : TransactionTrace) :
    PipeEffect.indexTransTrace ∈ process_applied_transaction gate sat stt cfg t
      ↔ (gate = true ∧ sat = true ∧ stt = true
          ∧ ∃ n ∈ traceNodesList t.action_traces, filter_include cfg n.act = true) := by
  cases gate with
  | false => simp [process_applied_transaction]
  | true =>
    have hnot := no_trans_trace_in_add true sat cfg
      (t.receipt_valid && (t.receipt_status == executedStatus)) t.action_traces
    have hiff := added_iff true sat cfg
      (t.receipt_valid && (t.receipt_status == executedStatus)) t.action_traces
    simp only [process_applied_transaction, if_true, processAppliedTransactionInner,
      List.mem_append]
    cases hadd : (add_action_trace_list true sat cfg
        (t.receipt_valid && (t.receipt_status == executedStatus)) t.action_traces).2 with
    | false =>
      rw [hadd] at hiff
      constructor
      · rintro ((h | h) | h)
        · exact absurd h hnot
        · simp at h
        · split at h
          · simp at h
          · split at h
            · simp at h
            · rename_i h2
              simp at h2
      · rintro ⟨-, hsat, -, hex⟩
        have := hiff.mpr ⟨rfl, hsat, hex⟩
        simp at this
    | true =>
      rw [hadd] at hiff
      obtain ⟨-, hsat, hex⟩ := hiff.mp rfl
      cases hstt : stt with
      | false =>
        constructor
        · rintro ((h | h) | h)
          · exact absurd h hnot
          · simp at h
          · simp at h
        · rintro ⟨-, -, hc, -⟩
          exact absurd hc (by simp)
      | true =>
        constructor
        · intro _
          exact ⟨by trivial, hsat, by trivial, hex⟩
        · intro _
          simp

/-- Counterexample to C2 as frozen: with the gate open,
`store_transaction_traces = true` and a wildcard filter that the (executed)
action passes, but `store_action_traces = false`, no `transaction_traces`
document is indexed — the claimed iff omits the `store_action_traces`
conjunct. -/
theorem trans_trace_written_iff_cex :
    (∃ n ∈ traceNodesList sampleTrace.action_traces,
        filter_include sampleCfgStar n.act = true)
    ∧ PipeEffect.indexTransTrace ∉
        process_applied_transaction true false true sampleCfgStar sampleTrace := by
  decide

/-- C1 (amended): for a transaction trace processed while the start-block
gate is open, `update_account` is invoked on the action of every node of the
action-trace tree whose receipt receiver is the system account, provided the
transaction receipt is present with status `executed` — regardless of
`store_action_traces`, `store_transaction_traces` and the filter
configuration.  (The frozen claim additionally asserted gate-independence,
which the gate check in `process_applied_transaction` refutes.) -/
theorem update_account_on_executed_system_nodes (sat stt : Bool)
    (cfg : FilterConfig) (t : TransactionTrace) (n : ActionTrace)
    (hv : t.receipt_valid = true) (hs : t.receipt_status = executedStatus)
    (hn : n ∈ traceNodesList t.action_traces)
    (hr : n.receiver = system_account_name) :
    PipeEffect.updateAccountCall n.act ∈
      process_applied_transaction true sat stt cfg t := by
  have hx : (t.receipt_valid && (t.receipt_status == executedStatus)) = true := by
    simp [hv, hs]
  simp only [process_applied_transaction, if_true, processAppliedTransactionInner, hx,
    List.mem_append]
  exact Or.inl (Or.inl (update_account_call_in_add true sat cfg t.action_traces n hn hr))

/-- Witness for C1 at a concrete gate-open scenario with every store flag
off. -/
theorem update_account_on_executed_system_nodes_witness :
    PipeEffect.updateAccountCall sampleAction ∈
      process_applied_transaction true false false sampleCfgStar sampleTrace :=
  update_account_on_executed_system_nodes false false sampleCfgStar sampleTrace
    sampleSysNode rfl rfl (by decide) rfl

/-- Counterexample to C1 as frozen: with the start-block gate closed, the
consumer's applied-transaction handler returns before walking the trace, so
`update_account` is not invoked even for an executed system-receiver node. -/
theorem update_account_gate_cex :
    sampleTrace.receipt_valid = true
    ∧ sampleTrace.receipt_status = executedStatus
    ∧ sampleSysNode ∈ traceNodesList sampleTrace.action_traces
    ∧ sampleSysNode.receiver = system_account_name
    ∧ PipeEffect.updateAccountCall sampleSysNode.act ∉
        process_applied_transaction false true true sampleCfgStar sampleTrace := by
  decide

/-! ## Accepted-block processing and the start-block gate -/

/-- The documents the accepted-block path can write. -/
inductive BlockEffect where
  | indexBlockStates (block_num : Nat)
  | indexBlocks (block_num : Nat)
deriving DecidableEq, Repr

/-- `elasticsearch_plugin_impl::_process_accepted_block` (lines 760-807): a
`block_states` document is always written; a `blocks` document follows unless
`store_blocks` is off. -/
def processAcceptedBlockInner (store_blocks : Bool) (block_num : Nat) :
    List BlockEffect :=
  [BlockEffect.indexBlockStates block_num]
    ++ (if !store_blocks then [] else [BlockEffect.indexBlocks block_num])

/-- `elasticsearch_plugin_impl::process_accepted_block` (lines 458-475):
latch `start_block_reached` once the height reaches `start_block_num`, and
process the block only when the latch is set.  Returns the new gate value and
the documents written. -/
def process_accepted_block (gate : Bool) (start_block_num : Nat)
    (store_blocks : Bool) (block_num : Nat) : Bool × List BlockEffect :=
  let gate' :=
    if !gate then
      (if block_num ≥ start_block_num then true else gate)
    else gate
  if gate' then (gate', processAcceptedBlockInner store_blocks block_num)
  else (gate', [])

/-- C4: an accepted block at height ≥ `start_block_num` opens the closed
gate; whenever the gate is open after that check, a `block_states` document
is always written and a `blocks` document is written iff `store_blocks`;
a block below `start_block_num` with the gate closed writes nothing. -/
theorem accepted_block_gate_spec (gate : Bool) (start_block_num : Nat)
    (store_blocks : Bool) (block_num : Nat) :
    (gate = false → start_block_num ≤ block_num →
        (process_accepted_block gate start_block_num store_blocks block_num).1 = true)
    ∧ ((process_accepted_block gate start_block_num store_blocks block_num).1 = true →
        BlockEffect.indexBlockStates block_num ∈
            (process_accepted_block gate start_block_num store_blocks block_num).2
          ∧ (BlockEffect.indexBlocks block_num ∈
                (process_accepted_block gate start_block_num store_blocks block_num).2
              ↔ store_blocks = true))
    ∧ (gate = false → block_num < start_block_num →
        (process_accepted_block gate start_block_num store_blocks block_num).2 = []) := by
  simp only [process_accepted_block, processAcceptedBlockInner]
  cases gate with
  | false =>
    by_cases hge : start_block_num ≤ block_num
    · cases store_blocks <;> simp [hge]
    · simp [hge, Nat.not_le.mp hge]
  | true =>
    cases store_blocks <;> simp

/-- Witness for C4: with `start_block_num = 100`, block 100 opens the closed
gate, writes `block_states`, and writes `blocks` iff `store_blocks`. -/
theorem accepted_block_gate_spec_witness :
    (process_accepted_block false 100 true 100).1 = true
    ∧ BlockEffect.indexBlockStates 100 ∈ (process_accepted_block false 100 true 100).2
    ∧ (BlockEffect.indexBlocks 100 ∈ (process_accepted_block false 100 true 100).2
        ↔ true = true)
    ∧ (process_accepted_block false 100 false 99).2 = [] :=
  ⟨(accepted_block_gate_spec false 100 true 100).1 rfl (by decide),
   ((accepted_block_gate_spec false 100 true 100).2.1
      ((accepted_block_gate_spec false 100 true 100).1 rfl (by decide))).1,
   ((accepted_block_gate_spec false 100 true 100).2.1
      ((accepted_block_gate_spec false 100 true 100).1 rfl (by decide))).2,
   (accepted_block_gate_spec false 100 false 99).2.2 rfl (by decide)⟩

/-! ## Staging queue backpressure (`elasticsearch_plugin_impl::queue`) -/

/-- One staging queue together with the shared `queue_sleep_time` counter
(an `int` number of milliseconds in the source). -/
structure QueueState (α : Type) where
  queue : List α
  sleepTime : Int
deriving Repr

/-- `elasticsearch_plugin_impl::queue` (lines 247-266) as seen by one
producer: on overflow (`size > max_queue_size`) the counter grows by 10 ms
and the producer sleeps that long before appending; otherwise the counter
shrinks by 10 ms, floored at 0, and no sleep happens.  The element is
appended in both branches.  Returns the new state and the milliseconds
slept. -/
def enqueue {α : Type} (max_queue_size : Nat) (s : QueueState α) (e : α) :
    QueueState α × Int :=
  if s.queue.length > max_queue_size then
    let t := s.sleepTime + 10
    (⟨s.queue ++ [e], t⟩, t)
  else
    let t0 := s.sleepTime - 10
    let t := if t0 < 0 then 0 else t0
    (⟨s.queue ++ [e], t⟩, 0)

/-- A sequence of `enqueue` calls by one producer; returns the final state
and the list of per-call sleep durations. -/
def enqueueRun {α : Type} (max_queue_size : Nat) (s : QueueState α) :
    List α → QueueState α × List Int
  | [] => (s, [])
  | e :: es =>
    let r₁ := enqueue max_queue_size s e
    let r₂ := enqueueRun max_queue_size r₁.1 es
    (r₂.1, r₁.2 :: r₂.2)

theorem enqueue_sleep_nonneg {α : Type} (max_queue_size : Nat)
    (s : QueueState α) (e : α) (h : 0 ≤ s.sleepTime) :
    0 ≤ (enqueue max_queue_size s e).2
      ∧ 0 ≤ (enqueue max_queue_size s e).1.sleepTime := by
  simp only [enqueue]
  split
  · constructor <;> simp <;> omega
  · split <;> simp
    omega

theorem enqueueRun_facts {α : Type} (max_queue_size : Nat) :
    ∀ (es : List α) (s : QueueState α), 0 ≤ s.sleepTime →
      (enqueueRun max_queue_size s es).1.queue = s.queue ++ es
      ∧ ∀ d ∈ (enqueueRun max_queue_size s es).2, 0 ≤ d := by
  intro es
  induction es with
  | nil => intro s _; simp [enqueueRun]
  | cons e es ih =>
    intro s hs
    obtain ⟨hd, hst⟩ := enqueue_sleep_nonneg max_queue_size s e hs
    obtain ⟨hq, hds⟩ := ih (enqueue max_queue_size s e).1 hst
    have hq1 : (enqueue max_queue_size s e).1.queue = s.queue ++ [e] := by
      simp only [enqueue]
      split <;> simp
    refine ⟨?_, ?_⟩
    · simp [enqueueRun, hq, hq1]
    · intro d hdmem
      simp only [enqueueRun, List.mem_cons] at hdmem
      rcases hdmem with h | h
      · exact h ▸ hd
      · exact hds d h

theorem sum_take_mono_of_nonneg (l : List Int) (h : ∀ d ∈ l, 0 ≤ d)
    (i j : Nat) (hij : i ≤ j) : (l.take i).sum ≤ (l.take j).sum := by
  have hj : l.take j = l.take i ++ (l.drop i).take (j - i) := by
    rw [← List.take_add]
    congr 1
    omega
  rw [hj, List.sum_append]
  have : 0 ≤ ((l.drop i).take (j - i)).sum := by
    apply List.sum_nonneg
    intro x hx
    exact h x (List.drop_subset i l (List.take_subset _ _ hx))
  omega

/-- C8: each `enqueue` call appends the element exactly once; on overflow the
adaptive counter grows by 10 ms and the producer sleeps exactly the new
counter value; otherwise the counter shrinks by 10 ms floored at 0 and there
is no sleep; and over any call sequence starting from a nonnegative counter
the cumulative sleep is monotonically non-decreasing per call. -/
theorem queue_backpressure_spec (max_queue_size : Nat) :
    (∀ (s : QueueState Nat) (e : Nat),
        (enqueue max_queue_size s e).1.queue = s.queue ++ [e]
        ∧ (s.queue.length > max_queue_size →
            (enqueue max_queue_size s e).1.sleepTime = s.sleepTime + 10
            ∧ (enqueue max_queue_size s e).2 = s.sleepTime + 10)
        ∧ (¬ s.queue.length > max_queue_size →
            (enqueue max_queue_size s e).1.sleepTime = max (s.sleepTime - 10) 0
            ∧ (enqueue max_queue_size s e).2 = 0))
    ∧ (∀ (s : QueueState Nat) (es : List Nat), 0 ≤ s.sleepTime →
        (enqueueRun max_queue_size s es).1.queue = s.queue ++ es
        ∧ ∀ i j : Nat, i ≤ j →
            (((enqueueRun max_queue_size s es).2.take i).sum
              ≤ ((enqueueRun max_queue_size s es).2.take j).sum)) := by
  constructor
  · intro s e
    refine ⟨?_, ?_, ?_⟩
    · simp only [enqueue]; split <;> simp
    · intro hgt
      simp only [enqueue, if_pos hgt]
      exact ⟨trivial, trivial⟩
    · intro hle
      simp only [enqueue, if_neg hle]
      refine ⟨?_, trivial⟩
      split <;> rename_i h <;> omega
  · intro s es hs
    obtain ⟨hq, hds⟩ := enqueueRun_facts max_queue_size es s hs
    exact ⟨hq, fun i j hij =>
      sum_take_mono_of_nonneg (enqueueRun max_queue_size s es).2 hds i j hij⟩

/-- Witness for C8: five enqueues into a queue capped at 2 from an idle
counter; every element survives and the cumulative sleeps are monotone. -/
theorem queue_backpressure_spec_witness :
    (enqueue 2 ⟨[1, 2, 3], 0⟩ 4).1.queue = [1, 2, 3, 4]
    ∧ (enqueueRun 2 ⟨[], 0⟩ [1, 2, 3, 4, 5]).1.queue = [1, 2, 3, 4, 5]
    ∧ ((enqueueRun 2 ⟨[], 0⟩ [1, 2, 3, 4, 5]).2.take 1).sum
        ≤ ((enqueueRun 2 ⟨[], 0⟩ [1, 2, 3, 4, 5]).2.take 4).sum :=
  ⟨((queue_backpressure_spec 2).1 ⟨[1, 2, 3], 0⟩ 4).1,
   ((queue_backpressure_spec 2).2 ⟨[], 0⟩ [1, 2, 3, 4, 5] (by decide)).1,
   ((queue_backpressure_spec 2).2 ⟨[], 0⟩ [1, 2, 3, 4, 5] (by decide)).2 1 4
     (by decide)⟩

/-! ## ABI cache (`abi_cache_index`, `purge_abi_cache`, `get_abi_serializer`) -/

/-- `abi_cache`: account, last access time, and the cached serializer.  The
serializer is abstracted to the `abi_def` it was built from. -/
structure AbiCacheEntry where
  account : Nat
  last_accessed : Nat
  serializer : Option AbiDef
deriving DecidableEq, Repr

/-- `elasticsearch_plugin_impl::purge_abi_cache` (lines 316-325): when the
cache has reached `abi_cache_size`, erase the entry at the head of the
`by_last_access` ordered index, i.e. a first entry with smallest
`last_accessed`. -/
def purge_abi_cache (cap : Nat) (cache : List AbiCacheEntry) :
    List AbiCacheEntry :=
  if cache.length < cap then cache
  else
    match cache.argmin (fun e => e.last_accessed) with
    | none => cache
    | some e => cache.erase e

/-- `elasticsearch_plugin_impl::find_account` (lines 636-649): the account
exists iff the `accounts` search returned `hits.total == 1`. -/
def find_account (hitsTotal : Nat) : Bool :=
  hitsTotal == 1

/-- `elasticsearch_plugin_impl::get_abi_serializer` (lines 341-405).
`hitsTotal` is the `hits.total` of the `accounts` search issued on a cache
miss; `abiDoc` is `some abi` when the hit carries an `abi` field that parses
as `abi_def` (`search_abi_by_account` and `abi_v.as<abi_def>` both succeed).
On a cache hit the entry's `last_accessed` is refreshed; on a successful
fetch the cache is purged to make room and the new entry appended. -/
def get_abi_serializer (cap hitsTotal : Nat) (abiDoc : Option AbiDef)
    (now : Nat) (cache : List AbiCacheEntry) (n : Nat) :
    Option AbiDef × List AbiCacheEntry :=
  if n == 0 then (none, cache)
  else
    match cache.find? (fun e => e.account == n) with
    | some e =>
        (e.serializer,
          cache.map (fun x =>
            if x.account == n then { x with last_accessed := now } else x))
    | none =>
        if find_account hitsTotal then
          match abiDoc with
          | some abi =>
              (some abi, purge_abi_cache cap cache ++ [⟨n, now, some abi⟩])
          | none => (none, cache)
        else (none, cache)

/-- The cache-affecting operations: a `get_abi_serializer` call (with the
search-store responses it observed) or the `abi_cache_index.erase` performed
by the `setabi` projection. -/
inductive AbiOp where
  | get (n hitsTotal : Nat) (abiDoc : Option AbiDef) (now : Nat)
  | invalidate (n : Nat)
deriving DecidableEq, Repr

/-- Effect of one operation on the cache. -/
def abiStep (cap : Nat) (cache : List AbiCacheEntry) : AbiOp → List AbiCacheEntry
  | .get n hitsTotal abiDoc now =>
      (get_abi_serializer cap hitsTotal abiDoc now cache n).2
  | .invalidate n => cache.filter (fun e => !(e.account == n))

/-- The cache after a sequence of operations, starting empty. -/
def runAbiOps (cap : Nat) (ops : List AbiOp) : List AbiCacheEntry :=
  ops.foldl (abiStep cap) []

theorem purge_evicts_min (cap : Nat) (hcap : 1 ≤ cap) (c : List AbiCacheEntry)
    (h : cap ≤ c.length) :
    ∃ e ∈ c, purge_abi_cache cap c = c.erase e
      ∧ (purge_abi_cache cap c).length = c.length - 1
      ∧ ∀ x ∈ c, e.last_accessed ≤ x.last_accessed := by
  have hne : c ≠ [] := by
    intro hc
    rw [hc] at h
    simp at h
    omega
  have hnlt : ¬ c.length < cap := by omega
  cases ha : c.argmin (fun e => e.last_accessed) with
  | none => exact absurd (List.argmin_eq_none.mp ha) hne
  | some e =>
    have hin : e ∈ c.argmin (fun e => e.last_accessed) := by
      rw [Option.mem_def]
      exact ha
    have hmem : e ∈ c := List.argmin_mem hin
    refine ⟨e, hmem, ?_, ?_, ?_⟩
    · simp [purge_abi_cache, hnlt, ha]
    · simp [purge_abi_cache, hnlt, ha, List.length_erase_of_mem hmem]
    · intro x hx
      exact List.le_of_mem_argmin hx hin

theorem abiStep_length (cap : Nat) (hcap : 1 ≤ cap) (c : List AbiCacheEntry)
    (op : AbiOp) (h : c.length ≤ cap) : (abiStep cap c op).length ≤ cap := by
  cases op with
  | invalidate n =>
    exact le_trans (List.length_filter_le _ _) h
  | get n hitsTotal abiDoc now =>
    simp only [abiStep, get_abi_serializer]
    split
    · exact h
    · split
      · simpa using h
      · split
        · split
          · rename_i abi
            by_cases hlt : c.length < cap
            · have : purge_abi_cache cap c = c := by simp [purge_abi_cache, hlt]
              simp [this]
              omega
            · obtain ⟨e, -, -, hlen, -⟩ :=
                purge_evicts_min cap hcap c (by omega)
              simp [hlen]
              omega
          · exact h
        · exact h

/-- C3: starting from the empty cache, after any sequence of
`get_abi_serializer` / `setabi`-invalidation operations the cache size never
exceeds the configured capacity; and whenever `purge_abi_cache` runs at
capacity it erases exactly one entry, one with minimal `last_accessed`. -/
theorem abi_cache_bounded_lru (cap : Nat) (hcap : 1 ≤ cap) (ops : List AbiOp) :
    (runAbiOps cap ops).length ≤ cap
    ∧ ∀ c : List AbiCacheEntry, cap ≤ c.length →
        ∃ e ∈ c, purge_abi_cache cap c = c.erase e
          ∧ (purge_abi_cache cap c).length = c.length - 1
          ∧ ∀ x ∈ c, e.last_accessed ≤ x.last_accessed := by
  constructor
  · have hgen : ∀ (l : List AbiOp) (c : List AbiCacheEntry), c.length ≤ cap →
        (l.foldl (abiStep cap) c).length ≤ cap := by
      intro l
      induction l with
      | nil => intro c hc; simpa using hc
      | cons op ops ih =>
        intro c hc
        exact ih (abiStep cap c op) (abiStep_length cap hcap c op hc)
    exact hgen ops [] (by simp)
  · exact fun c hc => purge_evicts_min cap hcap c hc

/-- Witness for C3 at capacity 2: a get sequence that fills the cache and
overflows it stays within bounds. -/
theorem abi_cache_bounded_lru_witness :
    (runAbiOps 2 [.get 5 1 (some ⟨1⟩) 100, .get 6 1 (some ⟨2⟩) 101,
        .get 7 1 (some ⟨3⟩) 102, .invalidate 6]).length ≤ 2 :=
  (abi_cache_bounded_lru 2 (by decide)
    [.get 5 1 (some ⟨1⟩) 100, .get 6 1 (some ⟨2⟩) 101,
     .get 7 1 (some ⟨3⟩) 102, .invalidate 6]).1

/-! ## Account projection (`update_account`) -/

/-- The search-store and cache operations `update_account` can perform, in
source order.  `eraseAbiCache` is the `abi_cache_index.erase` done by the
`setabi` branch; `indexAccountAbi` is the upsert of the `accounts` document
carrying the decoded `abi_def` (not raw bytes) and `updateAt = now`. -/
inductive StoreEffect where
  | eraseAbiCache (account : Nat)
  | searchAccounts (account : Nat)
  | createAccount (account : Nat) (now : Nat)
  | indexAccountAbi (account : Nat) (abi : AbiDef) (updateAt : Nat)
  | addPubKeys (account permission : Nat) (keys : List Nat) (now : Nat)
  | addAccountControl (account permission : Nat) (controllers : List Nat) (now : Nat)
  | removePubKeys (account permission : Nat)
  | removeAccountControl (account permission : Nat)
deriving DecidableEq, Repr

/-- `elasticsearch_plugin_impl::update_account` (lines 666-731).
`totalBefore` and `totalAfter` are the `hits.total` values returned by the
two `find_account` searches of the `setabi` branch.  A data-decoding failure
(`data_as` throwing, modelled by a constructor mismatch) aborts the branch
before any effect; a failing `fc::raw::unpack<abi_def>` on the `setabi.abi`
bytes (modelled by `abi = none`) aborts after the cache erase and the
find/create effects, skipping only the upsert.  Empty key/control lists skip
their bulk writes (`add_pub_keys` / `add_account_control` return early). -/
def update_account (totalBefore totalAfter now : Nat)
    (cache : List AbiCacheEntry) (act : Action) :
    List AbiCacheEntry × List StoreEffect :=
  if !(act.account == system_account_name) then (cache, [])
  else if act.name == newaccountName then
    match act.data with
    | .newaccountData nm ownerKeys ownerAccounts activeKeys activeAccounts =>
        (cache,
          [StoreEffect.createAccount nm now]
          ++ (if ownerKeys.isEmpty then []
              else [StoreEffect.addPubKeys nm ownerPermission ownerKeys now])
          ++ (if ownerAccounts.isEmpty then []
              else [StoreEffect.addAccountControl nm ownerPermission ownerAccounts now])
          ++ (if activeKeys.isEmpty then []
              else [StoreEffect.addPubKeys nm activePermission activeKeys now])
          ++ (if activeAccounts.isEmpty then []
              else [StoreEffect.addAccountControl nm activePermission activeAccounts now]))
    | _ => (cache, [])
  else if act.name == updateauthName then
    match act.data with
    | .updateauthData a p authKeys authAccounts =>
        (cache,
          [StoreEffect.removePubKeys a p, StoreEffect.removeAccountControl a p]
          ++ (if authKeys.isEmpty then []
              else [StoreEffect.addPubKeys a p authKeys now])
          ++ (if authAccounts.isEmpty then []
              else [StoreEffect.addAccountControl a p authAccounts now]))
    | _ => (cache, [])
  else if act.name == deleteauthName then
    match act.data with
    | .deleteauthData a p =>
        (cache, [StoreEffect.removePubKeys a p, StoreEffect.removeAccountControl a p])
    | _ => (cache, [])
  else if act.name == setabiName then
    match act.data with
    | .setabiData target abi =>
        (cache.filter (fun e => !(e.account == target)),
          [StoreEffect.eraseAbiCache target, StoreEffect.searchAccounts target]
          ++ (if find_account totalBefore then []
              else [StoreEffect.createAccount target now])
          ++ [StoreEffect.searchAccounts target]
          ++ (if find_account totalAfter then
                match abi with
                | some abiDef => [StoreEffect.indexAccountAbi target abiDef now]
                | none => []
              else []))
    | _ => (cache, [])
  else (cache, [])

/-- C9: for any action whose `account` field is not the system account,
`update_account` performs no search-store write and leaves the ABI cache
untouched — the receiver that triggered the call plays no role. -/
theorem update_account_non_system (totalBefore totalAfter now : Nat)
    (cache : List AbiCacheEntry) (act : Action)
    (h : act.account ≠ system_account_name) :
    update_account totalBefore totalAfter now cache act = (cache, []) := by
  have hb : (act.account == system_account_name) = false := by
    simpa using h
  simp [update_account, hb]

/-- Witness for C9: a `setabi`-shaped action from a non-system account does
nothing, even with a system receiver having triggered the call. -/
theorem update_account_non_system_witness :
    update_account 1 1 50 [⟨9, 1, none⟩] ⟨42, setabiName, [], .setabiData 9 (some ⟨3⟩)⟩
      = ([⟨9, 1, none⟩], []) :=
  update_account_non_system 1 1 50 [⟨9, 1, none⟩]
    ⟨42, setabiName, [], .setabiData 9 (some ⟨3⟩)⟩ (by decide)

/-- C7: on a system-account `setabi` whose payload decodes, `update_account`
erases the cached deserializer for the target account, and the erase is the
first operation, preceding every search-store call; if the first
`find_account` misses, an `accounts` document is created before the upsert;
and (when the re-query finds the document) the upsert carries the decoded
`abi_def` together with `updateAt = now`. -/
theorem update_account_setabi_spec (totalBefore totalAfter now : Nat)
    (cache : List AbiCacheEntry) (auth : List PermissionLevel)
    (target : Nat) (abi : AbiDef) (hafter : totalAfter = 1) :
    (update_account totalBefore totalAfter now cache
        ⟨system_account_name, setabiName, auth, .setabiData target (some abi)⟩).1
      = cache.filter (fun e => !(e.account == target))
    ∧ (∃ rest,
        (update_account totalBefore totalAfter now cache
            ⟨system_account_name, setabiName, auth, .setabiData target (some abi)⟩).2
          = StoreEffect.eraseAbiCache target :: rest)
    ∧ (totalBefore ≠ 1 →
        ∃ l₁ l₂,
          (update_account totalBefore totalAfter now cache
              ⟨system_account_name, setabiName, auth, .setabiData target (some abi)⟩).2
            = l₁ ++ StoreEffect.createAccount target now :: l₂
          ∧ StoreEffect.indexAccountAbi target abi now ∈ l₂)
    ∧ StoreEffect.indexAccountAbi target abi now ∈
        (update_account totalBefore totalAfter now cache
            ⟨system_account_name, setabiName, auth, .setabiData target (some abi)⟩).2 := by
  have hfa : find_account totalAfter = true := by
    simp [find_account, hafter]
  refine ⟨?_, ?_, ?_, ?_⟩
  · simp [update_account, system_account_name, setabiName, newaccountName,
      updateauthName, deleteauthName]
  · simp [update_account, system_account_name, setabiName, newaccountName,
      updateauthName, deleteauthName]
  · intro hb
    have hfb : find_account totalBefore = false := by
      simp [find_account, hb]
    refine ⟨[StoreEffect.eraseAbiCache target, StoreEffect.searchAccounts target],
      [StoreEffect.searchAccounts target, StoreEffect.indexAccountAbi target abi now],
      ?_, ?_⟩
    · simp [update_account, system_account_name, setabiName, newaccountName,
        updateauthName, deleteauthName, hfb, hfa]
    · simp
  · simp [update_account, system_account_name, setabiName, newaccountName,
      updateauthName, deleteauthName, hfa]

/-- Witness for C7: a concrete `setabi` for account 9 with a duplicate-free
store (`hits.total = 0` then `1`). -/
theorem update_account_setabi_spec_witness :
    (update_account 0 1 77 [⟨9, 5, some ⟨1⟩⟩, ⟨8, 6, none⟩]
        ⟨system_account_name, setabiName, [], .setabiData 9 (some ⟨2⟩)⟩).1
      = [⟨8, 6, none⟩]
    ∧ StoreEffect.indexAccountAbi 9 ⟨2⟩ 77 ∈
        (update_account 0 1 77 [⟨9, 5, some ⟨1⟩⟩, ⟨8, 6, none⟩]
            ⟨system_account_name, setabiName, [], .setabiData 9 (some ⟨2⟩)⟩).2 := by
  have h := update_account_setabi_spec 0 1 77 [⟨9, 5, some ⟨1⟩⟩, ⟨8, 6, none⟩] [] 9 ⟨2⟩ rfl
  exact ⟨by rw [h.1]; decide, h.2.2.2⟩

/-- C10: `find_account` reports existence iff `hits.total = 1`; with a
non-singleton hit count a cache-missing account yields no deserializer from
`get_abi_serializer`; and the `setabi` projection creates a fresh `accounts`
document whenever the first search does not return exactly one hit — in
particular when duplicates exist. -/
theorem find_account_single_hit_spec :
    (∀ hitsTotal : Nat, find_account hitsTotal = true ↔ hitsTotal = 1)
    ∧ (∀ (cap : Nat) (abiDoc : Option AbiDef) (now : Nat)
          (cache : List AbiCacheEntry) (n hitsTotal : Nat),
        n ≠ 0 → (∀ e ∈ cache, e.account ≠ n) → hitsTotal ≠ 1 →
        (get_abi_serializer cap hitsTotal abiDoc now cache n).1 = none)
    ∧ (∀ (totalBefore totalAfter now : Nat) (cache : List AbiCacheEntry)
          (auth : List PermissionLevel) (target : Nat) (abi : Option AbiDef),
        totalBefore ≠ 1 →
        StoreEffect.createAccount target now ∈
          (update_account totalBefore totalAfter now cache
              ⟨system_account_name, setabiName, auth, .setabiData target abi⟩).2) := by
  refine ⟨?_, ?_, ?_⟩
  · intro hitsTotal
    simp [find_account]
  · intro cap abiDoc now cache n hitsTotal hn hnone ht
    have hb : (n == 0) = false := by simpa using hn
    have hfind : cache.find? (fun e => e.account == n) = none := by
      rw [List.find?_eq_none]
      intro e he
      simpa using hnone e he
    have hfa : find_account hitsTotal = false := by
      simp [find_account, ht]
    simp [get_abi_serializer, hb, hfind, hfa]
  · intro totalBefore totalAfter now cache auth target abi hb
    have hfb : find_account totalBefore = false := by
      simp [find_account, hb]
    simp [update_account, system_account_name, setabiName, newaccountName,
      updateauthName, deleteauthName, hfb]

/-- Witness for C10: two duplicate documents (`hits.total = 2`) mean "not
found": no deserializer, and `setabi` creates a fresh document. -/
theorem find_account_single_hit_spec_witness :
    find_account 2 = false
    ∧ (get_abi_serializer 4 2 (some ⟨1⟩) 50 [⟨8, 1, some ⟨9⟩⟩] 9).1 = none
    ∧ StoreEffect.createAccount 9 50 ∈
        (update_account 2 2 50 []
            ⟨system_account_name, setabiName, [], .setabiData 9 (some ⟨1⟩)⟩).2 :=
  ⟨by decide,
   find_account_single_hit_spec.2.1 4 (some ⟨1⟩) 50 [⟨8, 1, some ⟨9⟩⟩] 9 2
     (by decide) (by decide) (by decide),
   find_account_single_hit_spec.2.2 2 2 50 [] [] 9 (some ⟨1⟩) (by decide)⟩

end Eos
